import Mathlib

/-!
Shallow embedding of the market-lab repository's indicator and backtest
engine (src/analytics/indicators.py, src/analytics/backtest.py, src/app.py).

Price series are lists of rationals; pandas NaN-able series are lists of
`Option ℚ` with `none` as the NaN sentinel.  Each pandas primitive used by
the source (ewm-mean with adjust=False, shift(1).fillna(0), pct_change,
cumprod, cummax, diff, rolling(n).mean()) is embedded as a list function,
and each pipeline stage of the two backtest implementations is a named
definition assembled exactly as in the corresponding source file.
-/

/-- Embeds `α = 2/(span+1)`, the decay used by pandas `ewm(span=span)`. -/
def emaAlpha (span : ℕ) : ℚ := 2 / (span + 1)

/-- Tail of the adjust=False EWM recurrence, carrying the previous value. -/
def ewmFrom (a : ℚ) : ℚ → List ℚ → List ℚ
  | _, [] => []
  | prev, x :: xs =>
    let e := a * x + (1 - a) * prev
    e :: ewmFrom a e xs

/-- pandas `series.ewm(span=span, adjust=False).mean()`:
`ema[0] = x[0]`, `ema[t] = α·x[t] + (1-α)·ema[t-1]`. -/
def ewm (span : ℕ) : List ℚ → List ℚ
  | [] => []
  | x :: xs => x :: ewmFrom (emaAlpha span) x xs

/-- pandas `series.shift(1).fillna(0)`: prepend 0, drop the last entry. -/
def shift1fill0 (xs : List ℚ) : List ℚ := (0 :: xs).take xs.length

/-- pandas `series.pct_change().fillna(0)`:
0 at index 0, `x[t]/x[t-1] - 1` afterwards. -/
def pct_change_fill0 : List ℚ → List ℚ
  | [] => []
  | x :: xs => 0 :: List.zipWith (fun cur prev => cur / prev - 1) xs (x :: xs)

/-- pandas `series.cumprod()` with accumulator. -/
def cumprodFrom (acc : ℚ) : List ℚ → List ℚ
  | [] => []
  | x :: xs => (acc * x) :: cumprodFrom (acc * x) xs

/-- pandas `series.cumprod()`. -/
def cumprod (xs : List ℚ) : List ℚ := cumprodFrom 1 xs

/-- pandas `series.cummax()` with accumulator. -/
def cummaxFrom (acc : ℚ) : List ℚ → List ℚ
  | [] => []
  | x :: xs => (max acc x) :: cummaxFrom (max acc x) xs

/-- pandas `series.cummax()`. -/
def cummax : List ℚ → List ℚ
  | [] => []
  | x :: xs => x :: cummaxFrom x xs

/-- pandas `series.diff()`: NaN at index 0, `x[t] - x[t-1]` afterwards. -/
def diffOpt : List ℚ → List (Option ℚ)
  | [] => []
  | x :: xs => none :: List.zipWith (fun cur prev => some (cur - prev)) xs (x :: xs)

/-- pandas `series.diff().fillna(0)`. -/
def diff_fill0 : List ℚ → List ℚ
  | [] => []
  | x :: xs => 0 :: List.zipWith (fun cur prev => cur - prev) xs (x :: xs)

/-- pandas `series.min()` on a nonempty series (the empty case is never
reached by the embedded code). -/
def listMin : List ℚ → ℚ
  | [] => 0
  | x :: xs => xs.foldl min x

/-- The length-`period` window of rows `t-period+1 .. t`. -/
def windowAt (period t : ℕ) (xs : List (Option ℚ)) : List (Option ℚ) :=
  (xs.drop (t + 1 - period)).take period

/-- pandas `series.rolling(period).mean()` with the default
`min_periods = period`: NaN until the window is full or when the window
contains a NaN, otherwise the arithmetic mean of the window. -/
def rollingMean (period : ℕ) (xs : List (Option ℚ)) : List (Option ℚ) :=
  (List.range xs.length).map fun t =>
    if t + 1 < period then none
    else
      let w := windowAt period t xs
      if w.all Option.isSome then some ((w.filterMap id).sum / (period : ℚ)) else none

/-! ## src/analytics/backtest.py — `ema_cross_backtest` -/

/-- Embeds `data["signal"] = (data["ema_fast"] > data["ema_slow"]).astype(int)`
with `ema_fast = close.ewm(span=fast, adjust=False).mean()` and
`ema_slow = close.ewm(span=slow, adjust=False).mean()`. -/
def signalSeries (closes : List ℚ) (fast slow : ℕ) : List ℚ :=
  List.zipWith (fun ef es => if ef > es then 1 else 0) (ewm fast closes) (ewm slow closes)

/-- Embeds `data["position"] = data["signal"].shift(1).fillna(0)`. -/
def positionSeries (closes : List ℚ) (fast slow : ℕ) : List ℚ :=
  shift1fill0 (signalSeries closes fast slow)

/-- Embeds `data["return"] = data["close"].pct_change().fillna(0)`. -/
def retSeries (closes : List ℚ) : List ℚ :=
  pct_change_fill0 closes

/-- Embeds `data["strategy_return"] = data["position"] * data["return"]`. -/
def stratRetSeries (closes : List ℚ) (fast slow : ℕ) : List ℚ :=
  List.zipWith (· * ·) (positionSeries closes fast slow) (retSeries closes)

/-- Embeds `data["equity"] = (1 + data["strategy_return"]).cumprod()`. -/
def equitySeries (closes : List ℚ) (fast slow : ℕ) : List ℚ :=
  cumprod ((stratRetSeries closes fast slow).map (fun r => 1 + r))

/-- Embeds `peak = data["equity"].cummax()`. -/
def peakSeries (closes : List ℚ) (fast slow : ℕ) : List ℚ :=
  cummax (equitySeries closes fast slow)

/-- Embeds `drawdown = (data["equity"] / peak) - 1`. -/
def drawdownSeries (closes : List ℚ) (fast slow : ℕ) : List ℚ :=
  List.zipWith (fun e p => e / p - 1) (equitySeries closes fast slow)
    (peakSeries closes fast slow)

/-- Embeds `trades = int((data["position"].diff().abs() > 0).sum())`. -/
def tradeCount (closes : List ℚ) (fast slow : ℕ) : ℕ :=
  (diffOpt (positionSeries closes fast slow)).countP fun d =>
    match d with
    | some v => decide (0 < |v|)
    | none => false

/-- Result dictionary of `ema_cross_backtest`. -/
structure BacktestResult where
  fast : ℕ
  slow : ℕ
  total_return : ℚ
  max_drawdown : ℚ
  trades : ℕ
  deriving DecidableEq

/-- Embeds `ema_cross_backtest(df, fast, slow)`.  `data["equity"].iloc[-1]` raises
`IndexError` on an empty frame, modelled as `none`. -/
def ema_cross_backtest (closes : List ℚ) (fast slow : ℕ) : Option BacktestResult :=
  match (equitySeries closes fast slow).getLast? with
  | none => none
  | some lastEq =>
    some { fast := fast, slow := slow,
           total_return := lastEq - 1,
           max_drawdown := listMin (drawdownSeries closes fast slow),
           trades := tradeCount closes fast slow }

/-! ## src/app.py — `ema`, `cmd_backtest` -/

/-- Embeds `ema(series, span)` in src/app.py: `series.ewm(span=span, adjust=False).mean()`. -/
def app_ema (series : List ℚ) (span : ℕ) : List ℚ :=
  ewm span series

/-- Embeds `add_ema` in src/analytics/indicators.py: the added column
`out["close"].ewm(span=span, adjust=False).mean()`. -/
def add_ema_col (closes : List ℚ) (span : ℕ) : List ℚ :=
  ewm span closes

/-- Embeds `signal = (fast > slow).astype(int)` in `cmd_backtest`, with
`fast = ema(df["close"], args.fast)` and `slow = ema(df["close"], args.slow)`. -/
def app_signal (closes : List ℚ) (fast slow : ℕ) : List ℚ :=
  List.zipWith (fun f s => if f > s then 1 else 0)
    (app_ema closes fast) (app_ema closes slow)

/-- Embeds `positions = signal.diff().fillna(0)` in `cmd_backtest`. -/
def app_positions (closes : List ℚ) (fast slow : ℕ) : List ℚ :=
  diff_fill0 (app_signal closes fast slow)

/-- Embeds `ret = df["close"].pct_change().fillna(0)` in `cmd_backtest`. -/
def app_ret (closes : List ℚ) : List ℚ :=
  pct_change_fill0 closes

/-- Embeds `strat_ret = ret * signal.shift(1).fillna(0)` in `cmd_backtest`. -/
def app_strat_ret (closes : List ℚ) (fast slow : ℕ) : List ℚ :=
  List.zipWith (· * ·) (app_ret closes) (shift1fill0 (app_signal closes fast slow))

/-- Embeds `equity = (1 + strat_ret).cumprod()` in `cmd_backtest`. -/
def app_equity (closes : List ℚ) (fast slow : ℕ) : List ℚ :=
  cumprod ((app_strat_ret closes fast slow).map (fun r => 1 + r))

/-- Embeds `trades = int((positions.abs() == 1).sum())` in `cmd_backtest`. -/
def app_trades (closes : List ℚ) (fast slow : ℕ) : ℕ :=
  (app_positions closes fast slow).countP fun d => decide (|d| = 1)

/-- Embeds `win_rate = float((strat_ret[strat_ret != 0] > 0).mean())
if (strat_ret != 0).any() else 0.0` in `cmd_backtest`. -/
def app_win_rate (closes : List ℚ) (fast slow : ℕ) : ℚ :=
  let strat := app_strat_ret closes fast slow
  if strat.any (fun x => decide (x ≠ 0)) then
    let sel := strat.filter (fun x => decide (x ≠ 0))
    ((sel.countP fun x => decide (0 < x) : ℕ) : ℚ) / (sel.length : ℚ)
  else 0

/-- Summary printed by `cmd_backtest`. -/
structure AppBacktestSummary where
  total_return : ℚ
  trades : ℕ
  win_rate : ℚ
  deriving DecidableEq

/-- The computation of `cmd_backtest` in src/app.py (file I/O elided).
`equity.iloc[-1]` raises `IndexError` on an empty frame, modelled as `none`. -/
def cmd_backtest (closes : List ℚ) (fast slow : ℕ) : Option AppBacktestSummary :=
  match (app_equity closes fast slow).getLast? with
  | none => none
  | some lastEq =>
    some { total_return := lastEq - 1,
           trades := app_trades closes fast slow,
           win_rate := app_win_rate closes fast slow }

/-! ## src/analytics/indicators.py — `add_rsi`; src/app.py — `rsi` -/

/-- Embeds `rs = avg_gain / avg_loss.replace(0, np.nan)`: NaN operands propagate,
a zero average loss becomes NaN before the division. -/
def rsDiv (g l : Option ℚ) : Option ℚ :=
  match g, l with
  | some gv, some lv => if lv = 0 then none else some (gv / lv)
  | _, _ => none

/-- Embeds `gain = delta.clip(lower=0)` in `add_rsi`. -/
def rsiGainB (closes : List ℚ) : List (Option ℚ) :=
  (diffOpt closes).map (Option.map fun d => max d 0)

/-- Embeds `loss = -delta.clip(upper=0)` in `add_rsi`. -/
def rsiLossB (closes : List ℚ) : List (Option ℚ) :=
  (diffOpt closes).map (Option.map fun d => -(min d 0))

/-- Embeds `avg_gain = gain.rolling(period).mean()` in `add_rsi`. -/
def avgGainB (closes : List ℚ) (period : ℕ) : List (Option ℚ) :=
  rollingMean period (rsiGainB closes)

/-- Embeds `avg_loss = loss.rolling(period).mean()` in `add_rsi`. -/
def avgLossB (closes : List ℚ) (period : ℕ) : List (Option ℚ) :=
  rollingMean period (rsiLossB closes)

/-- The `rsi_{period}` column added by `add_rsi` in
src/analytics/indicators.py: `100 - (100 / (1 + rs))`. -/
def add_rsi (closes : List ℚ) (period : ℕ) : List (Option ℚ) :=
  (List.zipWith rsDiv (avgGainB closes period) (avgLossB closes period)).map
    (Option.map fun rs => 100 - 100 / (1 + rs))

/-- Embeds `gain = np.where(delta > 0, delta, 0.0)` in src/app.py `rsi`:
the NaN at index 0 fails the comparison and becomes 0. -/
def app_rsi_gain (closes : List ℚ) : List ℚ :=
  (diffOpt closes).map fun d =>
    match d with
    | some v => if v > 0 then v else 0
    | none => 0

/-- Embeds `loss = np.where(delta < 0, -delta, 0.0)` in src/app.py `rsi`. -/
def app_rsi_loss (closes : List ℚ) : List ℚ :=
  (diffOpt closes).map fun d =>
    match d with
    | some v => if v < 0 then -v else 0
    | none => 0

/-- Embeds `gain_s = pd.Series(gain, ...).rolling(period).mean()` in src/app.py. -/
def app_avg_gain (closes : List ℚ) (period : ℕ) : List (Option ℚ) :=
  rollingMean period ((app_rsi_gain closes).map some)

/-- Embeds `loss_s = pd.Series(loss, ...).rolling(period).mean()` in src/app.py. -/
def app_avg_loss (closes : List ℚ) (period : ℕ) : List (Option ℚ) :=
  rollingMean period ((app_rsi_loss closes).map some)

/-- Embeds `rsi(close, period)` in src/app.py:
`rs = gain_s / (loss_s.replace(0, np.nan))`; `out = 100 - (100 / (1 + rs))`. -/
def app_rsi (closes : List ℚ) (period : ℕ) : List (Option ℚ) :=
  (List.zipWith rsDiv (app_avg_gain closes period) (app_avg_loss closes period)).map
    (Option.map fun rs => 100 - 100 / (1 + rs))

/-! ## Report util — Summarize -/

/-- Result record of the Report util's Summarize operation. -/
structure SummaryResult where
  rows : ℕ
  last_price : Option ℚ
  mean_return : Option ℚ
  volatility_std : Option ℝ
  best_return : Option ℚ
  worst_return : Option ℚ

/-- One-period percent changes with the undefined first value dropped
(`return[t] = close[t]/close[t-1] - 1` for `t ≥ 1`). -/
def summaryReturns (closes : List ℚ) : List ℚ :=
  List.zipWith (fun cur prev => cur / prev - 1) closes.tail closes

/-- Modelled from the spec: the Report util's `Summarize(PriceSeries)`
operation is not present under src/ (only the spec's §4.3 describes it).
`Summarize(PriceSeries) → {rows, last_price, mean_return, volatility_std,
best_return, worst_return}`; returns are one-period percent changes with the
first value dropped; with fewer than 2 bars every return-derived statistic
is absent/null; volatility_std is the sample standard deviation (ddof=1). -/
noncomputable def summarize (closes : List ℚ) : SummaryResult :=
  let rets := summaryReturns closes
  { rows := closes.length
    last_price := closes.getLast?
    mean_return :=
      if rets.isEmpty then none else some (rets.sum / (rets.length : ℚ))
    volatility_std :=
      if rets.length < 2 then none
      else
        let m : ℚ := rets.sum / (rets.length : ℚ)
        some (Real.sqrt ((rets.map (fun r => ((r - m : ℚ) : ℝ) ^ 2)).sum / ((rets.length : ℝ) - 1)))
    best_return := rets.max?
    worst_return := rets.min? }

/-! ## Basic length lemmas -/

theorem ewmFrom_length (a : ℚ) (p : ℚ) (xs : List ℚ) :
    (ewmFrom a p xs).length = xs.length := by
  induction xs generalizing p with
  | nil => simp [ewmFrom]
  | cons x xs ih => simp [ewmFrom, ih]

theorem ewm_length (span : ℕ) (xs : List ℚ) : (ewm span xs).length = xs.length := by
  cases xs with
  | nil => simp [ewm]
  | cons x xs => simp [ewm, ewmFrom_length]

theorem signalSeries_length (closes : List ℚ) (fast slow : ℕ) :
    (signalSeries closes fast slow).length = closes.length := by
  simp [signalSeries, ewm_length]

theorem shift1fill0_length (xs : List ℚ) : (shift1fill0 xs).length = xs.length := by
  simp [shift1fill0]

theorem positionSeries_length (closes : List ℚ) (fast slow : ℕ) :
    (positionSeries closes fast slow).length = closes.length := by
  simp [positionSeries, shift1fill0_length, signalSeries_length]

theorem shift1fill0_getElem_zero (xs : List ℚ) (h : xs ≠ []) :
    (shift1fill0 xs)[0]? = some 0 := by
  rw [shift1fill0, List.getElem?_take]
  have : 0 < xs.length := List.length_pos.mpr h
  simp [this]

theorem shift1fill0_getElem_succ (xs : List ℚ) (k : ℕ) (h : k + 1 < xs.length) :
    (shift1fill0 xs)[k + 1]? = xs[k]? := by
  rw [shift1fill0, List.getElem?_take]
  simp [h]

/-- C1: No-look-ahead.  For every nonempty close series, the position series
of `ema_cross_backtest` satisfies `position[0] = 0` and
`position[t] = signal[t-1]` for `1 ≤ t < n`, where the signal is 1 exactly
when the fast EMA is above the slow EMA. -/
theorem C1_no_lookahead (closes : List ℚ) (fast slow : ℕ) (h : closes ≠ []) :
    (positionSeries closes fast slow)[0]? = some 0 ∧
    (∀ t : ℕ, 1 ≤ t → t < closes.length →
      (positionSeries closes fast slow)[t]? = (signalSeries closes fast slow)[t - 1]?) ∧
    (∀ t : ℕ, ∀ ef es : ℚ, (ewm fast closes)[t]? = some ef →
      (ewm slow closes)[t]? = some es →
      (signalSeries closes fast slow)[t]? = some (if ef > es then 1 else 0)) := by
  refine ⟨?_, ?_, ?_⟩
  · exact shift1fill0_getElem_zero _ (by
      intro hnil
      exact h (by
        have := signalSeries_length closes fast slow
        rw [hnil] at this
        exact List.length_eq_zero.mp this.symm))
  · intro t ht htlen
    obtain ⟨k, rfl⟩ : ∃ k, t = k + 1 := ⟨t - 1, (Nat.succ_pred_eq_of_pos ht).symm⟩
    have hk : k + 1 < (signalSeries closes fast slow).length := by
      rw [signalSeries_length]; exact htlen
    simpa using shift1fill0_getElem_succ (signalSeries closes fast slow) k hk
  · intro t ef es hef hes
    rw [signalSeries, List.getElem?_zipWith, hef, hes]

/-- Witness for C1 at the concrete series `[100, 101]` with spans 12 and 26. -/
theorem C1_witness :
    ([(100 : ℚ), 101] ≠ []) ∧
    ((positionSeries [(100 : ℚ), 101] 12 26)[0]? = some 0 ∧
    (∀ t : ℕ, 1 ≤ t → t < ([(100 : ℚ), 101]).length →
      (positionSeries [(100 : ℚ), 101] 12 26)[t]? = (signalSeries [(100 : ℚ), 101] 12 26)[t - 1]?) ∧
    (∀ t : ℕ, ∀ ef es : ℚ, (ewm 12 [(100 : ℚ), 101])[t]? = some ef →
      (ewm 26 [(100 : ℚ), 101])[t]? = some es →
      (signalSeries [(100 : ℚ), 101] 12 26)[t]? = some (if ef > es then 1 else 0))) :=
  ⟨by decide, C1_no_lookahead [(100 : ℚ), 101] 12 26 (by decide)⟩

/-! ## C3: the EMA recurrence -/

theorem ewmFrom_rec (a p : ℚ) (xs : List ℚ) (t : ℕ) (e c : ℚ)
    (he : (p :: ewmFrom a p xs)[t]? = some e) (hc : xs[t]? = some c) :
    (ewmFrom a p xs)[t]? = some (a * c + (1 - a) * e) := by
  induction xs generalizing p t with
  | nil => simp at hc
  | cons x xs ih =>
    cases t with
    | zero =>
      simp only [List.getElem?_cons_zero, Option.some.injEq] at he hc
      subst he; subst hc
      simp [ewmFrom]
    | succ k =>
      simp only [List.getElem?_cons_succ] at he hc
      show (ewmFrom a p (x :: xs))[k + 1]? = _
      rw [ewmFrom]
      rw [List.getElem?_cons_succ]
      exact ih (a * x + (1 - a) * p) k (by rw [ewmFrom] at he; exact he) hc

/-- C3: every EMA in the repository is the adjust=false recurrence.
For every nonempty close series and every span ≥ 1, the embedded
`ewm` satisfies `ema[0] = close[0]` and
`ema[t+1] = α·close[t+1] + (1-α)·ema[t]` with `α = 2/(span+1)`; the column
added by `add_ema` (src/analytics/indicators.py), the `ema` helper in
src/app.py, and the EMA columns consumed by the backtest signal all equal
this function. -/
theorem C3_ema_recurrence (closes : List ℚ) (span : ℕ) (h : closes ≠ []) (hs : 1 ≤ span) :
    (ewm span closes)[0]? = closes[0]? ∧
    (∀ t : ℕ, ∀ e c : ℚ, (ewm span closes)[t]? = some e → closes[t + 1]? = some c →
      (ewm span closes)[t + 1]? = some (emaAlpha span * c + (1 - emaAlpha span) * e)) ∧
    emaAlpha span = 2 / ((span : ℚ) + 1) ∧
    add_ema_col closes span = ewm span closes ∧
    app_ema closes span = ewm span closes ∧
    (∀ fast slow : ℕ, signalSeries closes fast slow =
      List.zipWith (fun ef es => if ef > es then 1 else 0)
        (ewm fast closes) (ewm slow closes)) := by
  obtain ⟨y, ys, rfl⟩ := List.exists_cons_of_ne_nil h
  refine ⟨by simp [ewm], ?_, rfl, rfl, rfl, fun _ _ => rfl⟩
  intro t e c he hc
  rw [ewm] at he ⊢
  rw [List.getElem?_cons_succ] at hc ⊢
  exact ewmFrom_rec (emaAlpha span) y ys t e c he hc

/-- Witness for C3 at the series `[100, 101]` with span 5. -/
theorem C3_witness :
    (([(100 : ℚ), 101] ≠ []) ∧ 1 ≤ 5) ∧
    ((ewm 5 [(100 : ℚ), 101])[0]? = ([(100 : ℚ), 101])[0]? ∧
    (∀ t : ℕ, ∀ e c : ℚ, (ewm 5 [(100 : ℚ), 101])[t]? = some e →
      ([(100 : ℚ), 101])[t + 1]? = some c →
      (ewm 5 [(100 : ℚ), 101])[t + 1]? = some (emaAlpha 5 * c + (1 - emaAlpha 5) * e)) ∧
    emaAlpha 5 = 2 / ((5 : ℚ) + 1) ∧
    add_ema_col [(100 : ℚ), 101] 5 = ewm 5 [(100 : ℚ), 101] ∧
    app_ema [(100 : ℚ), 101] 5 = ewm 5 [(100 : ℚ), 101] ∧
    (∀ fast slow : ℕ, signalSeries [(100 : ℚ), 101] fast slow =
      List.zipWith (fun ef es => if ef > es then 1 else 0)
        (ewm fast [(100 : ℚ), 101]) (ewm slow [(100 : ℚ), 101]))) :=
  ⟨⟨by decide, by decide⟩, C3_ema_recurrence [(100 : ℚ), 101] 5 (by decide) (by decide)⟩

/-! ## C2: length-0 and length-1 edge cases -/

/-- C2 counterexample: on a length-0 series the backtest does not complete —
`data["equity"].iloc[-1]` raises `IndexError` (embedded as `none`), so no
result with `total_return = 0` is returned. -/
theorem C2_counterexample : ema_cross_backtest ([] : List ℚ) 12 26 = none := rfl

/-- C2 amended: on every series of length exactly 1 the backtest completes
with `total_return = 0`, `max_drawdown = 0` and `trade_count = 0` and no
division by zero; on a length-0 series it raises `IndexError` instead of
returning a result. -/
theorem C2_amended_edge_cases (c : ℚ) (fast slow : ℕ) :
    ema_cross_backtest [c] fast slow =
      some { fast := fast, slow := slow, total_return := 0,
             max_drawdown := 0, trades := 0 } ∧
    ema_cross_backtest ([] : List ℚ) fast slow = none := by
  constructor
  · simp [ema_cross_backtest, equitySeries, stratRetSeries, positionSeries,
      signalSeries, retSeries, pct_change_fill0, shift1fill0, ewm, ewmFrom,
      cumprod, cumprodFrom, drawdownSeries, peakSeries, cummax, cummaxFrom,
      listMin, tradeCount, diffOpt, emaAlpha]
  · rfl

/-! ## C5: trade counting -/

/-- The spec's trade count: number of bars `t ≥ 1` with `xs[t] ≠ xs[t-1]`. -/
def countTransitions (xs : List ℚ) : ℕ :=
  (xs.zip xs.tail).countP fun p => decide (p.1 ≠ p.2)

theorem countP_diff_pairs (ys zs : List ℚ) :
    (List.zipWith (fun cur prev => some (cur - prev)) ys zs).countP
      (fun d => match d with | some v => decide (0 < |v|) | none => false) =
    (zs.zip ys).countP fun p => decide (p.1 ≠ p.2) := by
  induction ys generalizing zs with
  | nil => cases zs <;> simp
  | cons y ys ih =>
    cases zs with
    | nil => simp
    | cons z zs =>
      simp only [List.zipWith_cons_cons, List.zip_cons_cons, List.countP_cons, ih]
      congr 1
      have : (0 < |y - z|) ↔ (z ≠ y) := by
        rw [abs_pos, sub_ne_zero]
        exact ne_comm
      simp [this]

theorem countP_absdiff_pairs (ys zs : List ℚ)
    (hy : ∀ v ∈ ys, v = 0 ∨ v = 1) (hz : ∀ v ∈ zs, v = 0 ∨ v = 1) :
    (List.zipWith (fun cur prev => cur - prev) ys zs).countP
      (fun d => decide (|d| = 1)) =
    (zs.zip ys).countP fun p => decide (p.1 ≠ p.2) := by
  induction ys generalizing zs with
  | nil => cases zs <;> simp
  | cons y ys ih =>
    cases zs with
    | nil => simp
    | cons z zs =>
      have hyv := hy y (List.mem_cons_self y ys)
      have hzv := hz z (List.mem_cons_self z zs)
      simp only [List.zipWith_cons_cons, List.zip_cons_cons, List.countP_cons]
      rw [ih zs (fun v hv => hy v (List.mem_cons_of_mem y hv))
            (fun v hv => hz v (List.mem_cons_of_mem z hv))]
      congr 1
      have : (|y - z| = 1) ↔ (z ≠ y) := by
        rcases hyv with rfl | rfl <;> rcases hzv with rfl | rfl <;> norm_num
      simp [this]

theorem mem_signal_zero_or_one (u w : List ℚ) (v : ℚ)
    (hv : v ∈ List.zipWith (fun ef es => if ef > es then (1 : ℚ) else 0) u w) :
    v = 0 ∨ v = 1 := by
  induction u generalizing w with
  | nil => simp at hv
  | cons a u ih =>
    cases w with
    | nil => simp at hv
    | cons b w =>
      simp only [List.zipWith_cons_cons, List.mem_cons] at hv
      rcases hv with rfl | hv
      · split <;> simp
      · exact ih w hv

/-- C5 counterexample: with closes `[1, 2]`, fast span 1 and slow span 2, the
position series has no transitions, yet `cmd_backtest` reports one trade —
its trade count is not the number of bars with `position[t] ≠ position[t-1]`. -/
theorem C5_counterexample :
    (cmd_backtest [(1 : ℚ), 2] 1 2).map AppBacktestSummary.trades = some 1 ∧
    countTransitions (shift1fill0 (app_signal [(1 : ℚ), 2] 1 2)) = 0 := by
  constructor
  · norm_num [cmd_backtest, app_equity, app_strat_ret, app_ret, app_signal,
      app_ema, ewm, ewmFrom, emaAlpha, pct_change_fill0, shift1fill0, cumprod,
      cumprodFrom, app_trades, app_positions, diff_fill0, app_win_rate]
  · norm_num [countTransitions, shift1fill0, app_signal, app_ema, ewm, ewmFrom,
      emaAlpha]

/-- C5 amended: in `ema_cross_backtest` the reported trade count equals the
number of bars `t ≥ 1` with `position[t] ≠ position[t-1]`; in `cmd_backtest`
(src/app.py) it instead equals the number of bars `t ≥ 1` with
`signal[t] ≠ signal[t-1]`, which differs from the position-transition count
when the signal changes on the final bar. -/
theorem C5_amended_trade_count (closes : List ℚ) (fast slow : ℕ) :
    tradeCount closes fast slow = countTransitions (positionSeries closes fast slow) ∧
    app_trades closes fast slow = countTransitions (app_signal closes fast slow) := by
  constructor
  · rw [tradeCount, countTransitions]
    cases hp : positionSeries closes fast slow with
    | nil => simp [diffOpt]
    | cons x rest =>
      rw [diffOpt]
      rw [List.countP_cons]
      simp only [decide_eq_true_eq]
      rw [countP_diff_pairs rest (x :: rest)]
      simp
  · rw [app_trades, app_positions, countTransitions]
    cases hs : app_signal closes fast slow with
    | nil => simp [diff_fill0]
    | cons x rest =>
      have hmem : ∀ v ∈ x :: rest, v = 0 ∨ v = 1 := by
        intro v hv
        rw [← hs] at hv
        exact mem_signal_zero_or_one _ _ v hv
      rw [diff_fill0, List.countP_cons]
      rw [countP_absdiff_pairs rest (x :: rest)
            (fun v hv => hmem v (List.mem_cons_of_mem x hv)) hmem]
      simp

/-! ## C6: RSI at zero average loss -/

theorem rollingMean_length (period : ℕ) (xs : List (Option ℚ)) :
    (rollingMean period xs).length = xs.length := by
  simp [rollingMean]

theorem diffOpt_length (xs : List ℚ) : (diffOpt xs).length = xs.length := by
  cases xs <;> simp [diffOpt]

theorem avgGainB_length (closes : List ℚ) (period : ℕ) :
    (avgGainB closes period).length = closes.length := by
  simp [avgGainB, rollingMean_length, rsiGainB, diffOpt_length]

theorem avgLossB_length (closes : List ℚ) (period : ℕ) :
    (avgLossB closes period).length = closes.length := by
  simp [avgLossB, rollingMean_length, rsiLossB, diffOpt_length]

theorem app_avg_gain_length (closes : List ℚ) (period : ℕ) :
    (app_avg_gain closes period).length = closes.length := by
  simp [app_avg_gain, rollingMean_length, app_rsi_gain, diffOpt_length]

theorem app_avg_loss_length (closes : List ℚ) (period : ℕ) :
    (app_avg_loss closes period).length = closes.length := by
  simp [app_avg_loss, rollingMean_length, app_rsi_loss, diffOpt_length]

theorem rollingMean_nonneg (period : ℕ) (xs : List (Option ℚ))
    (hxs : ∀ o ∈ xs, ∀ w : ℚ, o = some w → 0 ≤ w) (t : ℕ) (v : ℚ)
    (hv : (rollingMean period xs)[t]? = some (some v)) : 0 ≤ v := by
  rw [rollingMean, List.getElem?_map] at hv
  rcases Option.map_eq_some'.mp hv with ⟨u, hu, hfu⟩
  have hut : u = t := by
    have hlt : t < xs.length := by
      by_contra hge
      rw [List.getElem?_eq_none (by simpa using Nat.le_of_not_lt hge)] at hu
      exact Option.noConfusion hu
    rw [List.getElem?_range hlt] at hu
    exact (Option.some.injEq _ _ ▸ hu).symm ▸ rfl
  subst hut
  by_cases hlt : u + 1 < period
  · rw [if_pos hlt] at hfu
    exact Option.noConfusion hfu
  · rw [if_neg hlt] at hfu
    simp only at hfu
    by_cases hall : (windowAt period u xs).all Option.isSome
    · rw [if_pos hall, Option.some.injEq] at hfu
      rw [← hfu]
      apply div_nonneg _ (by positivity)
      apply List.sum_nonneg
      intro a ha
      rcases List.mem_filterMap.mp ha with ⟨o, ho, hoa⟩
      exact hxs o (List.mem_of_mem_drop (List.mem_of_mem_take ho)) a hoa
    · rw [if_neg hall] at hfu
      exact Option.noConfusion hfu

theorem rsiLossB_nonneg (closes : List ℚ) :
    ∀ o ∈ rsiLossB closes, ∀ w : ℚ, o = some w → 0 ≤ w := by
  intro o ho w hw
  rcases List.mem_map.mp ho with ⟨d, _, hdo⟩
  subst hdo
  rcases Option.map_eq_some'.mp hw with ⟨u, _, hu⟩
  rw [← hu]
  simp [min_le_right u 0]

theorem rsiGainB_nonneg (closes : List ℚ) :
    ∀ o ∈ rsiGainB closes, ∀ w : ℚ, o = some w → 0 ≤ w := by
  intro o ho w hw
  rcases List.mem_map.mp ho with ⟨d, _, hdo⟩
  subst hdo
  rcases Option.map_eq_some'.mp hw with ⟨u, _, hu⟩
  rw [← hu]
  exact le_max_right u 0

theorem app_rsi_loss_nonneg (closes : List ℚ) :
    ∀ o ∈ (app_rsi_loss closes).map some, ∀ w : ℚ, o = some w → 0 ≤ w := by
  intro o ho w hw
  rcases List.mem_map.mp ho with ⟨d, hd, hdo⟩
  subst hdo
  rw [Option.some.injEq] at hw
  subst hw
  rcases List.mem_map.mp hd with ⟨x, _, hxd⟩
  rw [← hxd]
  cases x with
  | none => simp
  | some u =>
    by_cases hu : u < 0
    · simp only [if_pos hu]
      linarith
    · simp only [if_neg hu]
      exact le_refl 0

theorem app_rsi_gain_nonneg (closes : List ℚ) :
    ∀ o ∈ (app_rsi_gain closes).map some, ∀ w : ℚ, o = some w → 0 ≤ w := by
  intro o ho w hw
  rcases List.mem_map.mp ho with ⟨d, hd, hdo⟩
  subst hdo
  rw [Option.some.injEq] at hw
  subst hw
  rcases List.mem_map.mp hd with ⟨x, _, hxd⟩
  rw [← hxd]
  cases x with
  | none => simp
  | some u =>
    by_cases hu : u > 0
    · simp only [if_pos hu]
      linarith
    · simp only [if_neg hu]
      exact le_refl 0

theorem rsDiv_some_zero (g : Option ℚ) : rsDiv g (some 0) = none := by
  cases g <;> simp [rsDiv]

theorem rsi_formula_lt_100 (G L : List (Option ℚ)) (u : ℕ) (v : ℚ)
    (hG : ∀ w : ℚ, G[u]? = some (some w) → 0 ≤ w)
    (hL : ∀ w : ℚ, L[u]? = some (some w) → 0 ≤ w)
    (hv : ((List.zipWith rsDiv G L).map (Option.map fun rs => 100 - 100 / (1 + rs)))[u]?
      = some (some v)) : v < 100 := by
  rw [List.getElem?_map] at hv
  rcases Option.map_eq_some'.mp hv with ⟨o, ho, hvo⟩
  rcases Option.map_eq_some'.mp hvo with ⟨rs, rfl, hrs⟩
  rw [List.getElem?_zipWith] at ho
  rcases hg : G[u]? with _ | g <;> rw [hg] at ho
  · exact Option.noConfusion ho
  rcases hl : L[u]? with _ | l <;> rw [hl] at ho
  · exact Option.noConfusion ho
  simp only [Option.some.injEq] at ho
  rcases g with _ | gv
  · simp [rsDiv] at ho
  rcases l with _ | lv
  · simp [rsDiv] at ho
  simp only [rsDiv] at ho
  by_cases hlz : lv = 0
  · rw [if_pos hlz] at ho; exact Option.noConfusion ho
  rw [if_neg hlz, Option.some.injEq] at ho
  have hgv : 0 ≤ gv := hG gv hg
  have hlv : 0 < lv := lt_of_le_of_ne (hL lv hl) (Ne.symm hlz)
  have hr : 0 ≤ gv / lv := div_nonneg hgv (le_of_lt hlv)
  rw [← hrs, ← ho]
  have hpos : 0 < 100 / (1 + gv / lv) := by
    apply div_pos (by norm_num)
    linarith
  linarith

/-- C6: when the rolling average loss is exactly 0 at a bar, both RSI
implementations report the undefined sentinel (`none`) at that bar, and every
defined RSI value is strictly below 100 — the division `100 - 100/(1+RS)`
never produces an infinite value. -/
theorem C6_rsi_zero_loss (closes : List ℚ) (period t : ℕ)
    (hl : (avgLossB closes period)[t]? = some (some 0))
    (hal : (app_avg_loss closes period)[t]? = some (some 0)) :
    (add_rsi closes period)[t]? = some none ∧
    (app_rsi closes period)[t]? = some none ∧
    (∀ u : ℕ, ∀ v : ℚ, (add_rsi closes period)[u]? = some (some v) → v < 100) ∧
    (∀ u : ℕ, ∀ v : ℚ, (app_rsi closes period)[u]? = some (some v) → v < 100) := by
  refine ⟨?_, ?_, ?_, ?_⟩
  · rw [add_rsi, List.getElem?_map, List.getElem?_zipWith]
    have ht : t < (avgLossB closes period).length := by
      by_contra hge
      rw [List.getElem?_eq_none (Nat.le_of_not_lt hge)] at hl
      exact Option.noConfusion hl
    have htg : t < (avgGainB closes period).length := by
      rw [avgGainB_length]
      rw [avgLossB_length] at ht
      exact ht
    rcases hg : (avgGainB closes period)[t]? with _ | g
    · rw [List.getElem?_eq_none_iff] at hg
      omega
    rw [hl]
    simp [rsDiv_some_zero]
  · rw [app_rsi, List.getElem?_map, List.getElem?_zipWith]
    have ht : t < (app_avg_loss closes period).length := by
      by_contra hge
      rw [List.getElem?_eq_none (Nat.le_of_not_lt hge)] at hal
      exact Option.noConfusion hal
    have htg : t < (app_avg_gain closes period).length := by
      rw [app_avg_gain_length]
      rw [app_avg_loss_length] at ht
      exact ht
    rcases hg : (app_avg_gain closes period)[t]? with _ | g
    · rw [List.getElem?_eq_none_iff] at hg
      omega
    rw [hal]
    simp [rsDiv_some_zero]
  · intro u v hv
    exact rsi_formula_lt_100 (avgGainB closes period) (avgLossB closes period) u v
      (fun w hw => rollingMean_nonneg period (rsiGainB closes) (rsiGainB_nonneg closes) u w hw)
      (fun w hw => rollingMean_nonneg period (rsiLossB closes) (rsiLossB_nonneg closes) u w hw)
      hv
  · intro u v hv
    exact rsi_formula_lt_100 (app_avg_gain closes period) (app_avg_loss closes period) u v
      (fun w hw => rollingMean_nonneg period ((app_rsi_gain closes).map some)
        (app_rsi_gain_nonneg closes) u w hw)
      (fun w hw => rollingMean_nonneg period ((app_rsi_loss closes).map some)
        (app_rsi_loss_nonneg closes) u w hw)
      hv

/-- Witness for C6: flat closes `[1, 1, 1]` with period 2 give a zero average
loss at bar 2, where both RSI columns are the undefined sentinel. -/
theorem C6_witness :
    ((avgLossB [(1 : ℚ), 1, 1] 2)[2]? = some (some 0) ∧
     (app_avg_loss [(1 : ℚ), 1, 1] 2)[2]? = some (some 0)) ∧
    ((add_rsi [(1 : ℚ), 1, 1] 2)[2]? = some none ∧
     (app_rsi [(1 : ℚ), 1, 1] 2)[2]? = some none ∧
     (∀ u : ℕ, ∀ v : ℚ, (add_rsi [(1 : ℚ), 1, 1] 2)[u]? = some (some v) → v < 100) ∧
     (∀ u : ℕ, ∀ v : ℚ, (app_rsi [(1 : ℚ), 1, 1] 2)[u]? = some (some v) → v < 100)) :=
  ⟨⟨by simp [avgLossB, rollingMean, windowAt, rsiLossB, diffOpt, List.range_succ],
    by simp [app_avg_loss, rollingMean, windowAt, app_rsi_loss, diffOpt, List.range_succ]⟩,
   C6_rsi_zero_loss [(1 : ℚ), 1, 1] 2 2
     (by simp [avgLossB, rollingMean, windowAt, rsiLossB, diffOpt, List.range_succ])
     (by simp [app_avg_loss, rollingMean, windowAt, app_rsi_loss, diffOpt, List.range_succ])⟩

/-! ## C4: drawdown bounds -/

theorem cumprodFrom_length (acc : ℚ) (xs : List ℚ) :
    (cumprodFrom acc xs).length = xs.length := by
  induction xs generalizing acc with
  | nil => simp [cumprodFrom]
  | cons x xs ih => simp [cumprodFrom, ih]

theorem pct_change_fill0_length (xs : List ℚ) :
    (pct_change_fill0 xs).length = xs.length := by
  cases xs <;> simp [pct_change_fill0]

theorem equitySeries_length (closes : List ℚ) (fast slow : ℕ) :
    (equitySeries closes fast slow).length = closes.length := by
  simp [equitySeries, cumprod, cumprodFrom_length, stratRetSeries,
    positionSeries_length, retSeries, pct_change_fill0_length,
    shift1fill0_length, signalSeries_length, positionSeries, shift1fill0,
    signalSeries, ewm_length]

theorem equity_shape (closes : List ℚ) (fast slow : ℕ) (h : closes ≠ []) :
    ∃ E : List ℚ, equitySeries closes fast slow = 1 :: E := by
  obtain ⟨c, cs, rfl⟩ := List.exists_cons_of_ne_nil h
  cases heq : equitySeries (c :: cs) fast slow with
  | nil =>
    have := equitySeries_length (c :: cs) fast slow
    rw [heq] at this
    simp at this
  | cons e E =>
    have h0 : (equitySeries (c :: cs) fast slow)[0]? = some 1 := by
      simp [equitySeries, stratRetSeries, positionSeries, signalSeries,
        retSeries, pct_change_fill0, ewm, shift1fill0, cumprod, cumprodFrom,
        List.take_succ_cons]
    rw [heq] at h0
    simp only [List.getElem?_cons_zero, Option.some.injEq] at h0
    exact ⟨E, by rw [h0]⟩

theorem cummaxFrom_mem_ge (acc : ℚ) (xs : List ℚ) :
    ∀ v ∈ cummaxFrom acc xs, acc ≤ v := by
  induction xs generalizing acc with
  | nil => simp [cummaxFrom]
  | cons x xs ih =>
    intro v hv
    rw [cummaxFrom, List.mem_cons] at hv
    rcases hv with rfl | hv
    · exact le_max_left acc x
    · exact le_trans (le_max_left acc x) (ih (max acc x) v hv)

theorem cummaxFrom_pointwise (acc : ℚ) (xs : List ℚ) (i : ℕ) (e p : ℚ)
    (he : xs[i]? = some e) (hp : (cummaxFrom acc xs)[i]? = some p) : e ≤ p := by
  induction xs generalizing acc i with
  | nil => simp at he
  | cons x xs ih =>
    cases i with
    | zero =>
      rw [cummaxFrom] at hp
      simp only [List.getElem?_cons_zero, Option.some.injEq] at he hp
      subst he; subst hp
      exact le_max_right acc x
    | succ k =>
      rw [cummaxFrom] at hp
      rw [List.getElem?_cons_succ] at he hp
      exact ih (max acc x) k he hp

theorem cummaxFrom_chain (acc : ℚ) (xs : List ℚ)
    (h : List.Chain' (· ≤ ·) (acc :: xs)) : cummaxFrom acc xs = xs := by
  induction xs generalizing acc with
  | nil => rfl
  | cons x xs ih =>
    rw [List.chain'_cons] at h
    rw [cummaxFrom, max_eq_right h.1, ih x h.2]

theorem foldl_min_le_acc (acc : ℚ) (xs : List ℚ) : xs.foldl min acc ≤ acc := by
  induction xs generalizing acc with
  | nil => simp
  | cons x xs ih => exact le_trans (ih (min acc x)) (min_le_left acc x)

theorem listMin_all_zero (xs : List ℚ) (hne : xs ≠ []) (h : ∀ v ∈ xs, v = 0) :
    listMin xs = 0 := by
  cases xs with
  | nil => exact absurd rfl hne
  | cons x xs =>
    rw [listMin]
    have hx : x = 0 := h x (List.mem_cons_self x xs)
    subst hx
    induction xs with
    | nil => rfl
    | cons y ys ih =>
      have hy : y = 0 := h y (List.mem_cons_of_mem 0 (List.mem_cons_self y ys))
      subst hy
      rw [List.foldl_cons, min_self]
      exact ih (by simp) (by
        intro v hv
        rcases List.mem_cons.mp hv with rfl | hv
        · rfl
        · exact h v (List.mem_cons_of_mem 0 (List.mem_cons_of_mem 0 hv)))

theorem zipWith_self_eq_map (f : ℚ → ℚ → ℚ) (xs : List ℚ) :
    List.zipWith f xs xs = xs.map fun x => f x x := by
  induction xs with
  | nil => rfl
  | cons x xs ih => simp [ih]

/-- C4: the backtest's reported `max_drawdown` is always ≤ 0 and equals 0
whenever the equity series is monotonically non-decreasing. -/
theorem C4_drawdown (closes : List ℚ) (fast slow : ℕ) (h : closes ≠ []) :
    ∀ r : BacktestResult, ema_cross_backtest closes fast slow = some r →
      r.max_drawdown ≤ 0 ∧
      (List.Chain' (· ≤ ·) (equitySeries closes fast slow) → r.max_drawdown = 0) := by
  intro r hr
  obtain ⟨E, hE⟩ := equity_shape closes fast slow h
  rw [ema_cross_backtest] at hr
  rcases hL : (equitySeries closes fast slow).getLast? with _ | lastEq
  · rw [hE] at hL
    simp [List.getLast?_cons] at hL
  rw [hL] at hr
  simp only [Option.some.injEq] at hr
  subst hr
  simp only
  constructor
  · -- max_drawdown ≤ 0
    rw [drawdownSeries, peakSeries, hE, cummax, List.zipWith_cons_cons]
    rw [listMin]
    have h00 : (1 : ℚ) / 1 - 1 = 0 := by norm_num
    rw [h00]
    refine le_trans (foldl_min_le_acc _ _) (le_refl 0) |>.trans_eq rfl |>.trans (le_refl 0)
  · -- monotone case
    intro hchain
    rw [drawdownSeries, peakSeries, hE] at *
    rw [hE] at hchain
    rw [cummax, cummaxFrom_chain 1 E hchain]
    rw [zipWith_self_eq_map]
    apply listMin_all_zero
    · simp
    · intro v hv
      rcases List.mem_map.mp hv with ⟨e, he, hev⟩
      have h1e : (1 : ℚ) ≤ e := by
        rcases List.mem_cons.mp he with rfl | he
        · exact le_refl 1
        · have hpw := (List.chain'_iff_pairwise.mp hchain)
          exact (List.pairwise_cons.mp hpw).1 e he
      have hne : e ≠ 0 := by linarith
      rw [← hev, div_self hne]
      ring

/-- Witness for C4 at the flat series `[1, 1]` with spans 2 and 3. -/
theorem C4_witness :
    ([(1 : ℚ), 1] ≠ []) ∧
    (∀ r : BacktestResult, ema_cross_backtest [(1 : ℚ), 1] 2 3 = some r →
      r.max_drawdown ≤ 0 ∧
      (List.Chain' (· ≤ ·) (equitySeries [(1 : ℚ), 1] 2 3) → r.max_drawdown = 0)) :=
  ⟨by decide, C4_drawdown [(1 : ℚ), 1] 2 3 (by decide)⟩

/-! ## C7: win rate -/

/-- C7: when at least one bar has a nonzero strategy return, the reported
win rate is the number of bars with strictly positive strategy return divided
by the number of bars with nonzero strategy return. -/
theorem C7_win_rate (closes : List ℚ) (fast slow : ℕ)
    (h : (app_strat_ret closes fast slow).any (fun x => decide (x ≠ 0)) = true) :
    app_win_rate closes fast slow =
      (((app_strat_ret closes fast slow).countP fun x => decide (0 < x) : ℕ) : ℚ) /
      (((app_strat_ret closes fast slow).countP fun x => decide (x ≠ 0) : ℕ) : ℚ) := by
  rw [app_win_rate]
  simp only [h, if_true]
  have hnum : ((app_strat_ret closes fast slow).filter fun x => decide (x ≠ 0)).countP
      (fun x => decide (0 < x)) =
      (app_strat_ret closes fast slow).countP fun x => decide (0 < x) := by
    rw [List.countP_filter]
    apply List.countP_congr
    intro x _
    constructor
    · intro hx
      simp only [Bool.and_eq_true, decide_eq_true_eq] at hx
      simp [hx.1]
    · intro hx
      simp only [decide_eq_true_eq] at hx
      simp only [Bool.and_eq_true, decide_eq_true_eq]
      exact ⟨hx, ne_of_gt hx⟩
  have hden : ((app_strat_ret closes fast slow).filter fun x => decide (x ≠ 0)).length =
      (app_strat_ret closes fast slow).countP fun x => decide (x ≠ 0) :=
    (List.countP_eq_length_filter _ _).symm
  rw [hnum, hden]

/-- Witness for C7: closes `[1, 2, 4]` with fast span 1 and slow span 3 give
a long position on bar 2 with a nonzero strategy return. -/
theorem C7_witness :
    ((app_strat_ret [(1 : ℚ), 2, 4] 1 3).any (fun x => decide (x ≠ 0)) = true) ∧
    (app_win_rate [(1 : ℚ), 2, 4] 1 3 =
      (((app_strat_ret [(1 : ℚ), 2, 4] 1 3).countP fun x => decide (0 < x) : ℕ) : ℚ) /
      (((app_strat_ret [(1 : ℚ), 2, 4] 1 3).countP fun x => decide (x ≠ 0) : ℕ) : ℚ)) :=
  ⟨by norm_num [app_strat_ret, app_ret, app_signal, app_ema, ewm, ewmFrom,
      emaAlpha, pct_change_fill0, shift1fill0],
   C7_win_rate [(1 : ℚ), 2, 4] 1 3
     (by norm_num [app_strat_ret, app_ret, app_signal, app_ema, ewm, ewmFrom,
       emaAlpha, pct_change_fill0, shift1fill0])⟩

/-! ## C9: the two backtests agree on total return -/

theorem zipWith_mul_comm (as bs : List ℚ) :
    List.zipWith (· * ·) as bs = List.zipWith (· * ·) bs as := by
  induction as generalizing bs with
  | nil => cases bs <;> rfl
  | cons a as ih =>
    cases bs with
    | nil => rfl
    | cons b bs => simp [mul_comm, ih]

theorem app_signal_eq (closes : List ℚ) (fast slow : ℕ) :
    app_signal closes fast slow = signalSeries closes fast slow := rfl

theorem app_strat_ret_eq (closes : List ℚ) (fast slow : ℕ) :
    app_strat_ret closes fast slow = stratRetSeries closes fast slow := by
  rw [app_strat_ret, stratRetSeries, app_signal_eq, app_ret, retSeries,
    positionSeries, zipWith_mul_comm]

theorem app_equity_eq (closes : List ℚ) (fast slow : ℕ) :
    app_equity closes fast slow = equitySeries closes fast slow := by
  rw [app_equity, equitySeries, app_strat_ret_eq]

/-- C9: for every nonempty close series and every pair of spans, the
`total_return` of `ema_cross_backtest` (src/analytics/backtest.py) equals the
`total_return` computed by `cmd_backtest` (src/app.py). -/
theorem C9_total_return_equiv (closes : List ℚ) (fast slow : ℕ) (h : closes ≠ []) :
    (ema_cross_backtest closes fast slow).map BacktestResult.total_return =
    (cmd_backtest closes fast slow).map AppBacktestSummary.total_return := by
  rw [ema_cross_backtest, cmd_backtest, app_equity_eq]
  cases hL : (equitySeries closes fast slow).getLast? with
  | none => rfl
  | some lastEq => rfl

/-- Witness for C9 at the series `[1, 2]` with the default spans 12, 26. -/
theorem C9_witness :
    ([(1 : ℚ), 2] ≠ []) ∧
    ((ema_cross_backtest [(1 : ℚ), 2] 12 26).map BacktestResult.total_return =
     (cmd_backtest [(1 : ℚ), 2] 12 26).map AppBacktestSummary.total_return) :=
  ⟨by decide, C9_total_return_equiv [(1 : ℚ), 2] 12 26 (by decide)⟩

/-! ## C10: the two RSI implementations agree for t ≥ period -/

theorem diffOpt_getElem_succ (closes : List ℚ) (k : ℕ) :
    (diffOpt closes)[k + 1]? =
      closes[k + 1]?.bind fun cur => closes[k]?.map fun prev => some (cur - prev) := by
  cases closes with
  | nil => simp [diffOpt]
  | cons x xs =>
    rw [diffOpt, List.getElem?_cons_succ, List.getElem?_zipWith]
    rw [List.getElem?_cons_succ]
    rcases xs[k]? with _ | cur <;> rcases (x :: xs)[k]? with _ | prev <;> rfl

theorem max_eq_ite (d : ℚ) : max d 0 = if d > 0 then d else 0 := by
  rcases le_or_lt d 0 with hd | hd
  · rw [max_eq_right hd, if_neg (not_lt.mpr hd)]
  · rw [max_eq_left (le_of_lt hd), if_pos hd]

theorem neg_min_eq_ite (d : ℚ) : -(min d 0) = if d < 0 then -d else 0 := by
  rcases le_or_lt d 0 with hd | hd
  · rcases eq_or_lt_of_le hd with rfl | hd'
    · simp
    · rw [min_eq_left hd, if_pos hd']
  · rw [min_eq_right (le_of_lt hd), if_neg (not_lt.mpr (le_of_lt hd)), neg_zero]

theorem gains_agree (closes : List ℚ) (i : ℕ) (hi : 1 ≤ i) :
    (rsiGainB closes)[i]? = ((app_rsi_gain closes).map some)[i]? := by
  obtain ⟨k, rfl⟩ : ∃ k, i = k + 1 := ⟨i - 1, (Nat.succ_pred_eq_of_pos hi).symm⟩
  rw [rsiGainB, app_rsi_gain, List.getElem?_map, List.getElem?_map,
    List.getElem?_map, diffOpt_getElem_succ]
  rcases closes[k + 1]? with _ | cur <;> rcases closes[k]? with _ | prev
  · rfl
  · rfl
  · rfl
  · exact congrArg some (congrArg some (max_eq_ite (cur - prev)))

theorem losses_agree (closes : List ℚ) (i : ℕ) (hi : 1 ≤ i) :
    (rsiLossB closes)[i]? = ((app_rsi_loss closes).map some)[i]? := by
  obtain ⟨k, rfl⟩ : ∃ k, i = k + 1 := ⟨i - 1, (Nat.succ_pred_eq_of_pos hi).symm⟩
  rw [rsiLossB, app_rsi_loss, List.getElem?_map, List.getElem?_map,
    List.getElem?_map, diffOpt_getElem_succ]
  rcases closes[k + 1]? with _ | cur <;> rcases closes[k]? with _ | prev
  · rfl
  · rfl
  · rfl
  · exact congrArg some (congrArg some (neg_min_eq_ite (cur - prev)))

theorem windows_agree (xs ys : List (Option ℚ))
    (hag : ∀ i : ℕ, 1 ≤ i → xs[i]? = ys[i]?) (k period : ℕ) (hk : 1 ≤ k) :
    (xs.drop k).take period = (ys.drop k).take period := by
  apply List.ext_getElem?
  intro j
  rw [List.getElem?_take, List.getElem?_take]
  by_cases hj : j < period
  · rw [if_pos hj, if_pos hj, List.getElem?_drop, List.getElem?_drop]
    exact hag (k + j) (le_trans hk (Nat.le_add_right k j))
  · rw [if_neg hj, if_neg hj]

theorem rollingMean_agree (xs ys : List (Option ℚ)) (hlen : xs.length = ys.length)
    (hag : ∀ i : ℕ, 1 ≤ i → xs[i]? = ys[i]?) (period t : ℕ)
    (hp : 1 ≤ period) (ht : period ≤ t) :
    (rollingMean period xs)[t]? = (rollingMean period ys)[t]? := by
  rw [rollingMean, rollingMean, ← hlen, List.getElem?_map, List.getElem?_map]
  by_cases htl : t < xs.length
  · rw [List.getElem?_range htl]
    simp only [Option.map_some']
    have hw : windowAt period t xs = windowAt period t ys := by
      rw [windowAt, windowAt]
      exact windows_agree xs ys hag (t + 1 - period) period (by omega)
    rw [hw]
  · rw [List.getElem?_eq_none (by simpa using Nat.le_of_not_lt htl)]
    rfl

/-- C10: for every close series, period ≥ 1 and bar `t ≥ period`, the RSI
column of `add_rsi` (src/analytics/indicators.py) and the series returned by
`rsi` (src/app.py) agree at `t`: defined together with the same value, or
undefined together. -/
theorem C10_rsi_equiv (closes : List ℚ) (period t : ℕ)
    (hp : 1 ≤ period) (ht : period ≤ t) :
    (add_rsi closes period)[t]? = (app_rsi closes period)[t]? := by
  have hG : (avgGainB closes period)[t]? = (app_avg_gain closes period)[t]? := by
    rw [avgGainB, app_avg_gain]
    exact rollingMean_agree _ _
      (by simp [rsiGainB, app_rsi_gain, diffOpt_length])
      (gains_agree closes) period t hp ht
  have hL : (avgLossB closes period)[t]? = (app_avg_loss closes period)[t]? := by
    rw [avgLossB, app_avg_loss]
    exact rollingMean_agree _ _
      (by simp [rsiLossB, app_rsi_loss, diffOpt_length])
      (losses_agree closes) period t hp ht
  rw [add_rsi, app_rsi, List.getElem?_map, List.getElem?_map,
    List.getElem?_zipWith, List.getElem?_zipWith, hG, hL]

/-- Witness for C10 at closes `[1, 2, 3]`, period 2, bar 2. -/
theorem C10_witness :
    (1 ≤ 2 ∧ 2 ≤ 2) ∧
    (add_rsi [(1 : ℚ), 2, 3] 2)[2]? = (app_rsi [(1 : ℚ), 2, 3] 2)[2]? :=
  ⟨⟨by decide, by decide⟩, C10_rsi_equiv [(1 : ℚ), 2, 3] 2 2 (by decide) (by decide)⟩

/-! ## C8: Summarize on fewer than 2 bars -/

/-- C8: applied to a price series with fewer than 2 bars, Summarize reports
every return-derived statistic (mean_return, volatility_std, best_return,
worst_return) as absent, not as zero. -/
theorem C8_summarize_short (closes : List ℚ) (h : closes.length < 2) :
    (summarize closes).mean_return = none ∧
    (summarize closes).volatility_std = none ∧
    (summarize closes).best_return = none ∧
    (summarize closes).worst_return = none := by
  have hr : summaryReturns closes = [] := by
    rcases closes with _ | ⟨c, _ | ⟨d, cs⟩⟩
    · rfl
    · rfl
    · exact absurd h (by simp [Nat.not_lt])
  refine ⟨?_, ?_, ?_, ?_⟩ <;> simp [summarize, hr]

/-- Witness for C8 at the one-bar series `[5]`. -/
theorem C8_witness :
    ([(5 : ℚ)].length < 2) ∧
    ((summarize [(5 : ℚ)]).mean_return = none ∧
     (summarize [(5 : ℚ)]).volatility_std = none ∧
     (summarize [(5 : ℚ)]).best_return = none ∧
     (summarize [(5 : ℚ)]).worst_return = none) :=
  ⟨by decide, C8_summarize_short [(5 : ℚ)] (by decide)⟩
